import Mathlib

/-!
Verification development for the `ttrung` repository: an access-control
firmware consisting of an HD44780-family character-LCD driver (`src/lcd.c`,
4-bit bus, pin-access configuration as selected by `src/code1.c`) and a
card-matching routine (`QUET_THE` in `src/code1.c`).

The driver is embedded shallowly as trace-producing functions: every
manipulation of a control line, every nibble driven onto or sampled from the
four data lines, and every delay is recorded as a `BusEv` event.  The LCD
device on the other side of the bus is abstracted as a state machine
(`Device`) that observes each event and supplies the nibble currently on the
data lines when the controller samples them.  Instantiations used below:
a stream device (a pure test double replaying a fixed sequence of nibbles)
and an HD44780 device model (character RAM + address counter).
-/

set_option maxRecDepth 10000

namespace Ttrung

/-- Observable events on the 4-bit LCD bus: the three control lines
(register-select, read/write, enable), the direction configuration of the
four data pins (`dirInput` models `output_float` on DATA4..DATA7,
`dirOutput` models `output_drive`), data-line traffic, and delays. -/
inductive BusEv where
  | setRS (v : Nat)
  | setRW (v : Nat)
  | setEnable (v : Nat)
  | dirInput
  | dirOutput
  | writeData (n : Nat)
  | readData (n : Nat)
  | delayCycles (k : Nat)
  | delayUs (k : Nat)
  | delayMs (k : Nat)
deriving DecidableEq, Repr

/-- An LCD-side device model: `step` lets the device observe every bus event,
`out` is the 4-bit value the device drives on the data lines when the
controller samples them. -/
structure Device (σ : Type) where
  step : σ → BusEv → σ
  out : σ → Nat

/-- Execution state of a driver run: current device state plus the trace of
bus events emitted so far. -/
structure DState (σ : Type) where
  dev : σ
  trace : List BusEv
deriving DecidableEq, Repr

/-- Emit one bus event: the device observes it and it is appended to the
trace. -/
def emit {σ : Type} (D : Device σ) (s : DState σ) (e : BusEv) : DState σ :=
  ⟨D.step s.dev e, s.trace ++ [e]⟩

/-- Embedding of `lcd_read_nibble` (pin-access branch): sample the four data
lines, i.e. the 4-bit value the device currently drives. -/
def lcd_read_nibble {σ : Type} (D : Device σ) (s : DState σ) : Nat × DState σ :=
  let n := D.out s.dev % 16
  (n, emit D s (.readData n))

/-- Embedding of `lcd_read_byte`: float the data pins, assert read, strobe
Enable twice to sample the high then the low nibble (with a ≥1 µs settle
before the second sample), drive the data pins again, and return
`(high <<< 4) ||| low`. -/
def lcd_read_byte {σ : Type} (D : Device σ) (s : DState σ) : Nat × DState σ :=
  let s := emit D s .dirInput
  let s := emit D s (.setRW 1)
  let s := emit D s (.delayCycles 1)
  let s := emit D s (.setEnable 1)
  let s := emit D s (.delayCycles 1)
  let (high, s) := lcd_read_nibble D s
  let s := emit D s (.setEnable 0)
  let s := emit D s (.delayCycles 1)
  let s := emit D s (.setEnable 1)
  let s := emit D s (.delayUs 1)
  let (low, s) := lcd_read_nibble D s
  let s := emit D s (.setEnable 0)
  let s := emit D s .dirOutput
  ((high <<< 4) ||| low, s)

/-- Embedding of `lcd_send_nibble` (pin-access branch): drive the low four
bits of `n` on the data lines, then pulse Enable for ≥2 µs. -/
def lcd_send_nibble {σ : Type} (D : Device σ) (s : DState σ) (n : Nat) : DState σ :=
  let s := emit D s (.writeData (n % 16))
  let s := emit D s (.delayCycles 1)
  let s := emit D s (.setEnable 1)
  let s := emit D s (.delayUs 2)
  emit D s (.setEnable 0)

/-- Embedding of the busy-wait loop `while ( bit_test(lcd_read_byte(),7) ) ;`
that appears in `lcd_send_byte` and `lcd_getc`.  The source loop has no
timeout; totality in Lean is obtained with a fuel parameter, `none` meaning
the loop has not terminated within `fuel` reads. -/
def lcd_busy_wait {σ : Type} (D : Device σ) : Nat → DState σ → Option (DState σ)
  | 0, _ => none
  | fuel + 1, s =>
    match lcd_read_byte D s with
    | (v, s) => if v.testBit 7 then lcd_busy_wait D fuel s else some s

/-- Embedding of `lcd_send_byte(address, n)`: force register-select to 0,
busy-wait on the command register, then set register-select to the caller's
value (all call sites pass 0 or 1), set read/write to write, deassert Enable
and send the high then the low nibble of `n`. -/
def lcd_send_byte {σ : Type} (D : Device σ) (fuel : Nat) (s : DState σ)
    (address n : Nat) : Option (DState σ) :=
  let s := emit D s (.setRS 0)
  match lcd_busy_wait D fuel s with
  | none => none
  | some s =>
    let s := emit D s (.setRS address)
    let s := emit D s (.delayCycles 1)
    let s := emit D s (.setRW 0)
    let s := emit D s (.delayCycles 1)
    let s := emit D s (.setEnable 0)
    let s := lcd_send_nibble D s ((n % 256) >>> 4)
    some (lcd_send_nibble D s (n &&& 0xf))

/-- `LCD_TYPE` defaults to 2 (two lines); `src/code1.c` does not override
it. -/
def LCD_TYPE : Nat := 2

/-- `LCD_LINE_TWO`: LCD RAM address of the second line. -/
def LCD_LINE_TWO : Nat := 0x40

/-- `LCD_INIT_STRING`: the four startup bytes
`{0x20 | (LCD_TYPE << 2), 0xc, 1, 6}`. -/
def LCD_INIT_STRING : List Nat := [0x20 ||| (LCD_TYPE <<< 2), 0xc, 1, 6]

/-- Embedding of `lcd_init` (pin-access branch): drive all data pins and the
three control pins, zero register-select, read/write and Enable, wait 15 ms,
send the raw nibble 3 three times with 5 ms gaps, send the raw nibble 2, then
send the four `LCD_INIT_STRING` bytes with `lcd_send_byte(0, _)`. -/
def lcd_init {σ : Type} (D : Device σ) (fuel : Nat) (s : DState σ) :
    Option (DState σ) :=
  let s := emit D s .dirOutput
  let s := emit D s (.setRS 0)
  let s := emit D s (.setRW 0)
  let s := emit D s (.setEnable 0)
  let s := emit D s (.delayMs 15)
  let s := lcd_send_nibble D s 3
  let s := emit D s (.delayMs 5)
  let s := lcd_send_nibble D s 3
  let s := emit D s (.delayMs 5)
  let s := lcd_send_nibble D s 3
  let s := emit D s (.delayMs 5)
  let s := lcd_send_nibble D s 2
  LCD_INIT_STRING.foldlM (fun s b => lcd_send_byte D fuel s 0 b) s

/-- The linear RAM address computed by `lcd_gotoxy`: offset `LCD_LINE_TWO`
for any row byte other than 1, else 0, then `address += x - 1` in unsigned
8-bit arithmetic (CCS `BYTE` operations wrap modulo 256, so `x = 0` yields
`address + 255`). -/
def gotoxy_address (x y : Nat) : Nat :=
  ((if y % 256 ≠ 1 then LCD_LINE_TWO else 0) + x % 256 + 255) % 256

/-- Embedding of `lcd_gotoxy(x, y)`: compute the address and send the
command byte `0x80 | address` to the command register. -/
def lcd_gotoxy {σ : Type} (D : Device σ) (fuel : Nat) (s : DState σ)
    (x y : Nat) : Option (DState σ) :=
  lcd_send_byte D fuel s 0 (0x80 ||| gotoxy_address x y)

/-- Embedding of `lcd_putc(c)`: `'\f'` (12) clears the display and waits
2 ms, `'\n'` (10) moves to (1,2), `'\b'` (8) sends the cursor-shift-left
command 0x10, any other character is sent to the data register. -/
def lcd_putc {σ : Type} (D : Device σ) (fuel : Nat) (s : DState σ)
    (c : Nat) : Option (DState σ) :=
  if c = 12 then (lcd_send_byte D fuel s 0 1).map (fun s => emit D s (.delayMs 2))
  else if c = 10 then lcd_gotoxy D fuel s 1 2
  else if c = 8 then lcd_send_byte D fuel s 0 0x10
  else lcd_send_byte D fuel s 1 c

/-- Embedding of `lcd_getc(x, y)`: move the cursor, busy-wait, set
register-select to data, read one byte, restore register-select to command,
return the byte. -/
def lcd_getc {σ : Type} (D : Device σ) (fuel : Nat) (s : DState σ)
    (x y : Nat) : Option (Nat × DState σ) :=
  match lcd_gotoxy D fuel s x y with
  | none => none
  | some s =>
    match lcd_busy_wait D fuel s with
    | none => none
    | some s =>
      let s := emit D s (.setRS 1)
      match lcd_read_byte D s with
      | (value, s) =>
        let s := emit D s (.setRS 0)
        some (value, s)

/-- Stream test double for the device: its state is the number of nibbles
sampled so far, and the `k`-th sample returns `f k`. -/
def streamDev (f : Nat → Nat) : Device Nat :=
  { step := fun k e => match e with | .readData _ => k + 1 | _ => k
    out := fun k => f k }

/-- A device whose reads are always 0: never busy. -/
def readyStream : Nat → Nat := fun _ => 0

/-- A device whose reads always have the busy bit set (each sampled nibble
is 8, so every assembled byte is 0x88). -/
def busyStream : Nat → Nat := fun _ => 8

/-- The byte assembled by `lcd_read_byte` from the stream double when the
first of its two nibble samples is sample number `k`. -/
def readByteV (f : Nat → Nat) (k : Nat) : Nat :=
  ((f k % 16) <<< 4) ||| (f (k + 1) % 16)

/-- The nibble values driven on the data lines, in trace order. -/
def dataWrites (tr : List BusEv) : List Nat :=
  tr.filterMap (fun e => match e with | .writeData n => some n | _ => none)

/-- The data-direction events of a trace, in order. -/
def dirEvents (tr : List BusEv) : List BusEv :=
  tr.filter (fun e => match e with | .dirInput => true | .dirOutput => true | _ => false)

/-- Reassemble bytes from a list of nibbles, high nibble first — the inverse
of the driver's nibble splitting, used to read byte transfers off a trace. -/
def nibblePairs : List Nat → List Nat
  | h :: l :: rest => ((h <<< 4) ||| l) :: nibblePairs rest
  | _ => []

/-- Modelled from the spec: state of the HD44780-family display device, which
is external hardware and not part of the repository source.  `ddram` is the
character RAM, `ac` the address counter (7 bits), `rs`/`rw`/`enable` track
the control-line levels the controller drives, `dataLatch` the nibble
currently driven on the data lines, `wphase`/`whigh` the 4-bit-interface
write phase (which half of a byte the next latched nibble is) and `rphase`
the read phase. -/
structure HDState where
  rs : Nat
  rw : Nat
  enable : Nat
  dataLatch : Nat
  ddram : Nat → Nat
  ac : Nat
  wphase : Bool
  whigh : Nat
  rphase : Bool

/-- Modelled from the spec: execution of one complete byte received by the
device.  With register-select high the byte is stored in character RAM at
the address counter, which then increments (entry mode as set by the init
sequence); with register-select low the byte is an instruction: set-DDRAM
-address (bit 7), clear-display (1), return-home (2, 3) and
cursor-shift-left (0x10) act on the modelled state, the remaining
instructions (function set, display control, entry mode) have no modelled
effect. -/
def hdExec (d : HDState) (b : Nat) : HDState :=
  if d.rs ≠ 0 then
    { d with ddram := fun a => if a = d.ac then b % 256 else d.ddram a,
             ac := (d.ac + 1) % 128 }
  else if 0x80 ≤ b then { d with ac := b % 128 }
  else if b = 1 then { d with ddram := fun _ => 0x20, ac := 0 }
  else if b = 2 ∨ b = 3 then { d with ac := 0 }
  else if b = 0x10 then { d with ac := (d.ac + 127) % 128 }
  else d

/-- Modelled from the spec: the device's reaction to a falling edge on
Enable.  In write mode it latches the nibble on the data lines (high half
first); a completed pair is executed as a byte.  In read mode it advances
the read phase; a completed data-register read increments the address
counter. -/
def hdFall (d : HDState) : HDState :=
  if d.rw = 0 then
    if d.wphase = false then { d with whigh := d.dataLatch, wphase := true }
    else hdExec { d with wphase := false } ((d.whigh <<< 4) ||| d.dataLatch)
  else
    if d.rphase = false then { d with rphase := true }
    else { d with rphase := false,
                  ac := if d.rs ≠ 0 then (d.ac + 1) % 128 else d.ac }

/-- Modelled from the spec: how the device observes bus events.  Control
-line events update the tracked levels (with the latch/phase logic firing on
a falling Enable edge), `writeData` updates the nibble seen on the data
lines, delays and direction changes have no device effect. -/
def hdStep (d : HDState) (e : BusEv) : HDState :=
  match e with
  | .setRS v => { d with rs := v }
  | .setRW v => { d with rw := v }
  | .setEnable v =>
      if v = 0 ∧ d.enable ≠ 0 then hdFall { d with enable := 0 }
      else { d with enable := v }
  | .writeData n => { d with dataLatch := n % 16 }
  | _ => d

/-- Modelled from the spec: the nibble the device drives on the data lines
when sampled.  With register-select low it presents the busy flag (bit 7)
and address counter — the modelled device is never busy, so bit 7 is 0 —
and with register-select high the character RAM byte at the address counter;
the high half is presented before the read phase advances, the low half
after. -/
def hdOut (d : HDState) : Nat :=
  let b := if d.rs ≠ 0 then d.ddram d.ac % 256 else d.ac % 128
  if d.rphase = false then b >>> 4 else b &&& 15

/-- Modelled from the spec: the HD44780 device as a bus-event state
machine. -/
def hdDev : Device HDState := ⟨hdStep, hdOut⟩

/-- Per-line RAM offset as the spec states it: offset(1) = 0,
offset(2) = 0x40. -/
def spec_lineOffset (y : Nat) : Nat := if y = 1 then 0 else 0x40

/-- A function-set instruction byte (bit 5 set): selects interface width and
character-matrix type. -/
def isFunctionSet (b : Nat) : Prop := 0x20 ≤ b ∧ b ≤ 0x3F

/-- A display-control instruction byte (bit 3 set): display on/off, cursor,
blink. -/
def isDisplayControl (b : Nat) : Prop := 0x8 ≤ b ∧ b ≤ 0xF

/-- An entry-mode-set instruction byte (bit 2 set). -/
def isEntryModeSet (b : Nat) : Prop := 0x4 ≤ b ∧ b ≤ 0x7

/-- The clear-display instruction byte. -/
def isClearDisplay (b : Nat) : Prop := b = 1

/-- One iteration of the comparison loop in `QUET_THE` (`src/code1.c`): the
pair carries the global `THE_1` and whether `break` has executed.  While not
broken, a matching index sets `THE_1` to 1, a mismatch sets it to 0 and
breaks. -/
def quet_step (DATA UID : Nat → Nat) (st : Nat × Bool) (i : Nat) : Nat × Bool :=
  if st.2 then st
  else if UID i = DATA i then (1, false) else (0, true)

/-- Embedding of `QUET_THE(DATA, UID)`: run the loop for `i = 0..3` starting
from the current value `the1` of the global `THE_1`, and return the final
`THE_1`. -/
def QUET_THE (DATA UID : Nat → Nat) (the1 : Nat) : Nat :=
  ((List.range 4).foldl (quet_step DATA UID) (the1, false)).1

/-- Whether a bus event changes the data lines driven by the controller. -/
def isWrite (e : BusEv) : Bool :=
  match e with | .writeData _ => true | _ => false

/-- The event template of one `lcd_read_byte` execution that sampled the
nibbles `h` then `l`. -/
def readTrV (h l : Nat) : List BusEv :=
  [.dirInput, .setRW 1, .delayCycles 1, .setEnable 1, .delayCycles 1,
   .readData h, .setEnable 0, .delayCycles 1, .setEnable 1, .delayUs 1,
   .readData l, .setEnable 0, .dirOutput]

/-- The event template of one `lcd_send_nibble n` execution. -/
def nibTr (n : Nat) : List BusEv :=
  [.writeData (n % 16), .delayCycles 1, .setEnable 1, .delayUs 2, .setEnable 0]

/-- The events of a busy-wait that read `j` busy bytes from the stream
double before the final not-busy read, starting at sample `k`. -/
def busyTr (f : Nat → Nat) (k : Nat) : Nat → List BusEv
  | 0 => readTrV (f k % 16) (f (k + 1) % 16)
  | j + 1 => readTrV (f k % 16) (f (k + 1) % 16) ++ busyTr f (k + 2) j

theorem dataWrites_append (a b : List BusEv) :
    dataWrites (a ++ b) = dataWrites a ++ dataWrites b :=
  List.filterMap_append a b _

theorem dataWrites_readTrV (h l : Nat) : dataWrites (readTrV h l) = [] := rfl

theorem dataWrites_nibTr (n : Nat) : dataWrites (nibTr n) = [n % 16] := rfl

theorem isWrite_readTrV (h l : Nat) :
    ∀ e ∈ readTrV h l, isWrite e = false := by
  intro e he
  simp only [readTrV, List.mem_cons, List.not_mem_nil, or_false] at he
  rcases he with h | h | h | h | h | h | h | h | h | h | h | h | h <;>
    subst h <;> rfl

theorem isWrite_busyTr (f : Nat → Nat) :
    ∀ j k, ∀ e ∈ busyTr f k j, isWrite e = false := by
  intro j
  induction j with
  | zero => intro k e he; exact isWrite_readTrV _ _ e he
  | succ j ih =>
    intro k e he
    rw [busyTr, List.mem_append] at he
    rcases he with h | h
    · exact isWrite_readTrV _ _ e h
    · exact ih (k + 2) e h

/-- Shape of one `lcd_read_byte` execution over an arbitrary device: it
returns the two sampled nibbles reassembled high-first and appends exactly
the `readTrV` template to the trace. -/
theorem lcd_read_byte_shape {σ : Type} (D : Device σ) (s : DState σ) :
    ∃ h l d, lcd_read_byte D s = ((h <<< 4) ||| l, ⟨d, s.trace ++ readTrV h l⟩) :=
  ⟨_, _, _, by
    simp [lcd_read_byte, lcd_read_nibble, emit, readTrV, List.append_assoc]
    exact ⟨rfl, rfl, rfl, rfl⟩⟩

/-- Shape of one `lcd_send_nibble` execution: it appends exactly the
`nibTr` template. -/
theorem lcd_send_nibble_shape {σ : Type} (D : Device σ) (s : DState σ) (n : Nat) :
    ∃ d, lcd_send_nibble D s n = ⟨d, s.trace ++ nibTr n⟩ :=
  ⟨_, by
    simp [lcd_send_nibble, emit, nibTr, List.append_assoc]
    exact rfl⟩

/-- A successful busy-wait only appends events that do not change the data
lines. -/
theorem lcd_busy_wait_shape {σ : Type} (D : Device σ) :
    ∀ (fuel : Nat) (s s' : DState σ), lcd_busy_wait D fuel s = some s' →
      ∃ btr, s'.trace = s.trace ++ btr ∧ ∀ e ∈ btr, isWrite e = false := by
  intro fuel
  induction fuel with
  | zero => intro s s' h; exact absurd h (by simp [lcd_busy_wait])
  | succ fuel ih =>
    intro s s' h
    obtain ⟨hi, lo, d, hr⟩ := lcd_read_byte_shape D s
    rw [lcd_busy_wait, hr] at h
    dsimp only at h
    by_cases hb : ((hi <<< 4) ||| lo).testBit 7
    · rw [if_pos hb] at h
      obtain ⟨btr, htr, hw⟩ := ih _ _ h
      refine ⟨readTrV hi lo ++ btr, ?_, ?_⟩
      · rw [htr]; simp [List.append_assoc]
      · intro e he
        rcases List.mem_append.mp he with h' | h'
        · exact isWrite_readTrV _ _ e h'
        · exact hw e h'
    · rw [if_neg hb] at h
      obtain rfl := Option.some_injective _ h
      exact ⟨readTrV hi lo, rfl, isWrite_readTrV hi lo⟩

/-- Shape of a successful `lcd_send_byte` execution over an arbitrary
device: register-select is forced to 0 first, then a write-free busy-wait
trace, then register-select is set to the caller's value, read/write to
write, and the high then low nibble templates follow. -/
theorem lcd_send_byte_shape {σ : Type} (D : Device σ) (fuel : Nat)
    (s s' : DState σ) (rs n : Nat) (h : lcd_send_byte D fuel s rs n = some s') :
    ∃ btr, s'.trace = s.trace ++ [BusEv.setRS 0] ++ btr ++
        [BusEv.setRS rs, .delayCycles 1, .setRW 0, .delayCycles 1, .setEnable 0] ++
        nibTr ((n % 256) >>> 4) ++ nibTr (n &&& 0xf) ∧
      ∀ e ∈ btr, isWrite e = false := by
  rw [lcd_send_byte] at h
  rcases hbw : lcd_busy_wait D fuel (emit D s (.setRS 0)) with _ | s₁
  · rw [hbw] at h; exact absurd h (by simp)
  · rw [hbw] at h
    dsimp only at h
    obtain ⟨btr, htr, hw⟩ := lcd_busy_wait_shape D fuel _ _ hbw
    obtain rfl := Option.some_injective _ h
    refine ⟨btr, ?_, hw⟩
    simp only [emit] at htr
    simp [lcd_send_nibble, emit, nibTr, htr, List.append_assoc]

/-- Over the stream double, one `lcd_read_byte` returns the next two stream
nibbles assembled high-first and advances the sample counter by two. -/
theorem stream_read_byte (f : Nat → Nat) (k : Nat) (tr : List BusEv) :
    lcd_read_byte (streamDev f) ⟨k, tr⟩ =
      (readByteV f k, ⟨k + 2, tr ++ readTrV (f k % 16) (f (k + 1) % 16)⟩) := by
  simp [lcd_read_byte, lcd_read_nibble, emit, streamDev, readByteV, readTrV,
    List.append_assoc]

/-- Characterization of a terminating busy-wait over the stream double:
some number `j` of leading byte reads had the busy bit set, the `j`-th read
did not, and the appended events are exactly the corresponding read
templates. -/
theorem stream_busy_wait_some (f : Nat → Nat) :
    ∀ (fuel k : Nat) (tr : List BusEv) (s' : DState Nat),
      lcd_busy_wait (streamDev f) fuel ⟨k, tr⟩ = some s' →
      ∃ j, (∀ i < j, (readByteV f (k + 2 * i)).testBit 7 = true) ∧
        (readByteV f (k + 2 * j)).testBit 7 = false ∧
        s' = ⟨k + 2 * (j + 1), tr ++ busyTr f k j⟩ := by
  intro fuel
  induction fuel with
  | zero => intro k tr s' h; exact absurd h (by simp [lcd_busy_wait])
  | succ fuel ih =>
    intro k tr s' h
    rw [lcd_busy_wait, stream_read_byte] at h
    dsimp only at h
    by_cases hb : (readByteV f k).testBit 7
    · rw [if_pos hb] at h
      obtain ⟨j, hbusy, hfree, hs⟩ := ih _ _ _ h
      refine ⟨j + 1, ?_, ?_, ?_⟩
      · intro i hi
        cases i with
        | zero => simpa using hb
        | succ i =>
          have : k + 2 * (i + 1) = k + 2 + 2 * i := by omega
          rw [this]
          exact hbusy i (by omega)
      · have : k + 2 * (j + 1) = k + 2 + 2 * j := by omega
        rw [this]; exact hfree
      · rw [hs, busyTr]
        have : k + 2 * (j + 1 + 1) = k + 2 + 2 * (j + 1) := by omega
        rw [this, List.append_assoc]
    · rw [if_neg hb] at h
      obtain rfl := Option.some_injective _ h
      exact ⟨0, by omega, by simpa using hb, by simp [busyTr]⟩

/-- If the `j`-th byte offered by the stream has the busy bit clear, a
busy-wait with fuel `j + 1` terminates. -/
theorem stream_busy_wait_of_free (f : Nat → Nat) :
    ∀ (j k : Nat) (tr : List BusEv),
      (readByteV f (k + 2 * j)).testBit 7 = false →
      ∃ s', lcd_busy_wait (streamDev f) (j + 1) ⟨k, tr⟩ = some s' := by
  intro j
  induction j with
  | zero =>
    intro k tr hfree
    rw [lcd_busy_wait, stream_read_byte]
    dsimp only
    rw [if_neg (by simpa using hfree)]
    exact ⟨_, rfl⟩
  | succ j ih =>
    intro k tr hfree
    rw [lcd_busy_wait, stream_read_byte]
    dsimp only
    by_cases hb : (readByteV f k).testBit 7
    · rw [if_pos hb]
      exact ih (k + 2) _ (by rw [show k + 2 + 2 * j = k + 2 * (j + 1) by omega]; exact hfree)
    · rw [if_neg hb]
      exact ⟨_, rfl⟩

theorem readByteV_busyStream (k : Nat) : readByteV busyStream k = 136 := by
  unfold readByteV busyStream
  decide

/-- Against the always-busy stream, the busy-wait loop never terminates,
whatever the fuel. -/
theorem busy_wait_busyStream_none :
    ∀ (fuel k : Nat) (tr : List BusEv),
      lcd_busy_wait (streamDev busyStream) fuel ⟨k, tr⟩ = none := by
  intro fuel
  induction fuel with
  | zero => intro k tr; rfl
  | succ fuel ih =>
    intro k tr
    rw [lcd_busy_wait, stream_read_byte]
    dsimp only
    rw [if_pos (by rw [readByteV_busyStream]; decide)]
    exact ih _ _

theorem lor_sixteen (hi lo : Nat) (h : lo < 16) : (hi <<< 4) ||| lo = 16 * hi + lo := by
  have h4 : lo < 2 ^ 4 := by norm_num [h]
  calc (hi <<< 4) ||| lo = (2 ^ 4 * hi) ||| lo := by
        rw [Nat.shiftLeft_eq, Nat.mul_comm]
    _ = 2 ^ 4 * hi + lo := (Nat.mul_add_lt_is_or h4 hi).symm
    _ = 16 * hi + lo := by norm_num

theorem and_fifteen (n : Nat) : n &&& 15 = n % 16 := by
  have := Nat.and_pow_two_sub_one_eq_mod n 4
  norm_num at this
  exact this

theorem shiftRight_four (n : Nat) : n >>> 4 = n / 16 := by
  rw [Nat.shiftRight_eq_div_pow]

/-- Splitting a byte into nibbles as the driver does and reassembling them
as the device does is the identity below 256. -/
theorem nibble_glue (n : Nat) (h : n < 256) :
    ((((n >>> 4) % 16) <<< 4) ||| ((n &&& 15) % 16)) = n := by
  rw [shiftRight_four, and_fifteen, Nat.mod_eq_of_lt (show n / 16 < 16 by omega),
    Nat.mod_mod_of_dvd n dvd_rfl, lor_sixteen _ _ (Nat.mod_lt _ (by norm_num))]
  omega

theorem mod128_glue (a : Nat) :
    ((((a % 128) >>> 4) % 16) <<< 4) ||| (((a % 128) &&& 15) % 16) = a % 128 :=
  nibble_glue (a % 128) (by omega)

theorem testBit7_mod128 (a : Nat) : (a % 128).testBit 7 = false :=
  Nat.testBit_lt_two_pow (by norm_num [Nat.mod_lt])

theorem lor128_of_lt (a : Nat) (h : a < 128) : 128 ||| a = 128 + a := by
  have h7 : a < 2 ^ 7 := by norm_num [h]
  have := (Nat.mul_add_lt_is_or h7 1).symm
  simpa using this

/-- Reading a byte from the HD44780 model with register-select low yields
the (7-bit, never-busy) address counter and only touches the read/write and
Enable line tracking. -/
theorem hd_read_byte_cmd (d : HDState) (tr : List BusEv) (hrs : d.rs = 0)
    (hrp : d.rphase = false) :
    lcd_read_byte hdDev ⟨d, tr⟩ =
      (d.ac % 128, ⟨{ d with rw := 1, enable := 0 },
        tr ++ readTrV (((d.ac % 128) >>> 4) % 16) (((d.ac % 128) &&& 15) % 16)⟩) := by
  simp [lcd_read_byte, lcd_read_nibble, emit, hdDev, hdStep, hdOut, hdFall, hrs, hrp,
    mod128_glue, readTrV, List.append_assoc]

/-- Reading a byte from the HD44780 model with register-select high yields
the character RAM byte at the address counter and then increments the
address counter. -/
theorem hd_read_byte_data (d : HDState) (tr : List BusEv) (hrs : d.rs = 1)
    (hrp : d.rphase = false) :
    lcd_read_byte hdDev ⟨d, tr⟩ =
      (d.ddram d.ac % 256, ⟨{ d with rw := 1, enable := 0, ac := (d.ac + 1) % 128 },
        tr ++ readTrV (((d.ddram d.ac % 256) >>> 4) % 16)
          (((d.ddram d.ac % 256) &&& 15) % 16)⟩) := by
  simp [lcd_read_byte, lcd_read_nibble, emit, hdDev, hdStep, hdOut, hdFall, hrs, hrp,
    nibble_glue _ (Nat.mod_lt (d.ddram d.ac) (by norm_num)), readTrV, List.append_assoc]

/-- Sending a byte `n < 256` to the ready HD44780 model (fuel 1 suffices
because the model is never busy): the device ends up executing exactly the
byte `n` with the control lines as the driver left them. -/
theorem hd_send_byte (d : HDState) (tr : List BusEv) (rs n : Nat)
    (hw : d.wphase = false) (hrp : d.rphase = false) (hn : n < 256) :
    ∃ tr', lcd_send_byte hdDev 1 ⟨d, tr⟩ rs n =
      some ⟨hdExec { d with
          rs := rs, rw := 0, enable := 0,
          dataLatch := (n &&& 15) % 16, wphase := false,
          whigh := (n >>> 4) % 16, rphase := false } n, tr'⟩ :=
  ⟨_, by
    simp [lcd_send_byte, lcd_busy_wait, lcd_read_byte, lcd_read_nibble,
      lcd_send_nibble, emit, hdDev, hdStep, hdOut, hdFall, hw, hrp,
      mod128_glue, testBit7_mod128, Nat.mod_eq_of_lt hn, nibble_glue n hn,
      List.append_assoc]
    exact rfl⟩

/-- Moving the cursor on the ready HD44780 model sets the address counter to
the computed linear address (when it is a legal 7-bit address) and leaves
the character RAM untouched. -/
theorem hd_gotoxy (d : HDState) (tr : List BusEv) (x y : Nat)
    (hw : d.wphase = false) (hrp : d.rphase = false)
    (ha : gotoxy_address x y < 128) :
    ∃ tr', lcd_gotoxy hdDev 1 ⟨d, tr⟩ x y =
      some ⟨{ d with
          rs := 0, rw := 0, enable := 0,
          dataLatch := ((128 + gotoxy_address x y) &&& 15) % 16, wphase := false,
          whigh := ((128 + gotoxy_address x y) >>> 4) % 16, rphase := false,
          ac := gotoxy_address x y }, tr'⟩ := by
  obtain ⟨tr', h⟩ := hd_send_byte d tr 0 (128 + gotoxy_address x y) hw hrp (by omega)
  refine ⟨tr', ?_⟩
  rw [lcd_gotoxy, show (0x80 : Nat) = 128 from rfl, lor128_of_lt _ ha, h]
  simp [hdExec, Nat.le_add_right, Nat.add_mod_left, Nat.mod_eq_of_lt ha]

/-- Writing a printable character on the ready HD44780 model stores it in
character RAM at the address counter and increments the address counter. -/
theorem hd_putc_print (d : HDState) (tr : List BusEv) (c : Nat)
    (hw : d.wphase = false) (hrp : d.rphase = false)
    (hc1 : 0x20 ≤ c) (hc2 : c ≤ 0x7E) :
    ∃ tr', lcd_putc hdDev 1 ⟨d, tr⟩ c =
      some ⟨{ d with
          rs := 1, rw := 0, enable := 0,
          dataLatch := (c &&& 15) % 16, wphase := false,
          whigh := (c >>> 4) % 16, rphase := false,
          ddram := fun a => if a = d.ac then c else d.ddram a,
          ac := (d.ac + 1) % 128 }, tr'⟩ := by
  obtain ⟨tr', h⟩ := hd_send_byte d tr 1 c hw hrp (by omega)
  refine ⟨tr', ?_⟩
  rw [lcd_putc, if_neg (by omega), if_neg (by omega), if_neg (by omega), h]
  simp [hdExec, Nat.mod_eq_of_lt (show c < 256 by omega)]

theorem hdDev_step_setRS (d : HDState) (v : Nat) :
    hdDev.step d (.setRS v) = { d with rs := v } := rfl

/-- Reading a character back from the ready HD44780 model returns the
character RAM byte at the computed linear address. -/
theorem hd_getc (d : HDState) (tr : List BusEv) (x y : Nat)
    (hw : d.wphase = false) (hrp : d.rphase = false)
    (ha : gotoxy_address x y < 128) :
    ∃ s', lcd_getc hdDev 1 ⟨d, tr⟩ x y =
      some (d.ddram (gotoxy_address x y) % 256, s') := by
  obtain ⟨tr1, h1⟩ := hd_gotoxy d tr x y hw hrp ha
  exact ⟨_, by
    rw [lcd_getc, h1]
    simp only [lcd_busy_wait]
    rw [hd_read_byte_cmd _ _ rfl rfl]
    simp only [testBit7_mod128, Bool.false_eq_true, if_false, emit, hdDev_step_setRS]
    rw [hd_read_byte_data _ _ rfl rfl]⟩

theorem readByteV_readyStream (k : Nat) : readByteV readyStream k = 0 := by
  unfold readByteV readyStream
  decide

theorem dataWrites_eq_nil (tr : List BusEv) (h : ∀ e ∈ tr, isWrite e = false) :
    dataWrites tr = [] := by
  rw [dataWrites, List.filterMap_eq_nil_iff]
  intro e he
  have := h e he
  cases e <;> simp_all [isWrite]

/-- The data-line writes appended by a successful `lcd_send_byte` are
exactly the two nibbles of the byte, high first. -/
theorem send_byte_dataWrites {σ : Type} (D : Device σ) (fuel : Nat)
    (s s' : DState σ) (rs n : Nat) (h : lcd_send_byte D fuel s rs n = some s') :
    dataWrites s'.trace =
      dataWrites s.trace ++ [((n % 256) >>> 4) % 16, (n &&& 15) % 16] := by
  obtain ⟨btr, htr, hw⟩ := lcd_send_byte_shape D fuel s s' rs n h
  rw [htr]
  simp only [dataWrites_append, dataWrites_nibTr, dataWrites_eq_nil btr hw]
  simp [dataWrites, Nat.mod_mod_of_dvd]

theorem nibbles_clean (n : Nat) (hn : n < 256) :
    [((n % 256) >>> 4) % 16, (n &&& 15) % 16] = [n >>> 4, n &&& 15] := by
  rw [Nat.mod_eq_of_lt hn, and_fifteen, shiftRight_four,
    Nat.mod_eq_of_lt (show n / 16 < 16 by omega),
    Nat.mod_mod_of_dvd n dvd_rfl]

/-- Over the ready stream double (fuel 1 suffices), `lcd_send_byte` always
completes. -/
theorem ready_send_byte_some (k : Nat) (tr : List BusEv) (rs n : Nat) :
    ∃ s', lcd_send_byte (streamDev readyStream) 1 ⟨k, tr⟩ rs n = some s' := by
  obtain ⟨s₁, hb⟩ := stream_busy_wait_of_free readyStream 0 k (tr ++ [.setRS 0])
    (by rw [readByteV_readyStream]; decide)
  rw [lcd_send_byte]
  have he : emit (streamDev readyStream) ⟨k, tr⟩ (.setRS 0) = ⟨k, tr ++ [.setRS 0]⟩ := rfl
  rw [he, hb]
  exact ⟨_, rfl⟩

/-- A full characterization of `lcd_gotoxy` over the ready stream double:
it always completes and drives exactly the two nibbles of
`0x80 ||| gotoxy_address x y`. -/
theorem ready_gotoxy_runs (x y k : Nat) (tr : List BusEv) :
    ∃ s', lcd_gotoxy (streamDev readyStream) 1 ⟨k, tr⟩ x y = some s' ∧
      dataWrites s'.trace = dataWrites tr ++
        [(0x80 ||| gotoxy_address x y) >>> 4, (0x80 ||| gotoxy_address x y) % 16] := by
  obtain ⟨s', h⟩ := ready_send_byte_some k tr 0 (0x80 ||| gotoxy_address x y)
  refine ⟨s', by rw [lcd_gotoxy]; exact h, ?_⟩
  have hlt : 0x80 ||| gotoxy_address x y < 256 := by
    have h1 : gotoxy_address x y < 256 := by
      rw [gotoxy_address]; exact Nat.mod_lt _ (by norm_num)
    have := Nat.or_lt_two_pow (x := 0x80) (y := gotoxy_address x y) (n := 8)
      (by norm_num) (by norm_num [h1])
    norm_num at this
    exact this
  rw [send_byte_dataWrites _ _ _ _ _ _ h, nibbles_clean _ hlt, and_fifteen]

/-- Claim C4: for every valid cursor position (column `x` 1-based, row
`y ∈ {1,2}`, linear address within the 7-bit range), `lcd_gotoxy x y` sends
the command byte `0x80 ||| address` with `address = offset(y) + x - 1`,
where `offset(1) = 0` and `offset(2) = 0x40`; in particular `(1,1)` targets
linear address 0 and `(1,2)` targets 0x40. -/
theorem lcd_gotoxy_valid_address {σ : Type} (D : Device σ) (fuel : Nat)
    (s : DState σ) (x y : Nat) (hy : y = 1 ∨ y = 2) (hx1 : 1 ≤ x)
    (hx2 : spec_lineOffset y + x - 1 ≤ 0x7F) :
    gotoxy_address x y = spec_lineOffset y + x - 1 ∧
    lcd_gotoxy D fuel s x y =
      lcd_send_byte D fuel s 0 (0x80 ||| (spec_lineOffset y + x - 1)) ∧
    spec_lineOffset 1 = 0 ∧ spec_lineOffset 2 = 0x40 ∧
    gotoxy_address 1 1 = 0 ∧ gotoxy_address 1 2 = 0x40 := by
  have haddr : gotoxy_address x y = spec_lineOffset y + x - 1 := by
    rcases hy with rfl | rfl <;>
      simp only [gotoxy_address, spec_lineOffset, LCD_LINE_TWO] <;>
      norm_num <;> omega
  exact ⟨haddr, by rw [lcd_gotoxy, haddr], rfl, rfl, by decide, by decide⟩

/-- Witness for C4 at the concrete position (1,2) over the ready stream
double. -/
theorem lcd_gotoxy_valid_address_witness :
    gotoxy_address 1 2 = spec_lineOffset 2 + 1 - 1 ∧
    lcd_gotoxy (streamDev readyStream) 1 ⟨0, []⟩ 1 2 =
      lcd_send_byte (streamDev readyStream) 1 ⟨0, []⟩ 0
        (0x80 ||| (spec_lineOffset 2 + 1 - 1)) ∧
    spec_lineOffset 1 = 0 ∧ spec_lineOffset 2 = 0x40 ∧
    gotoxy_address 1 1 = 0 ∧ gotoxy_address 1 2 = 0x40 :=
  lcd_gotoxy_valid_address (streamDev readyStream) 1 ⟨0, []⟩ 1 2 (Or.inr rfl)
    (by decide) (by decide)

/-- Claim C1 (counterexample): at column 0, row 1 — a column the spec calls
invalid — `lcd_gotoxy` does not reject the call: with a responsive device it
completes and drives the address command `0x80 ||| 0xFF` (nibbles 0xF, 0xF)
onto the bus, the silently wrapped address the claim says must never be
sent. -/
theorem lcd_gotoxy_no_fail_fast_counterexample :
    (lcd_gotoxy (streamDev readyStream) 1 ⟨0, []⟩ 0 1).map
        (fun s => dataWrites s.trace) = some [0xF, 0xF] ∧
    (lcd_gotoxy (streamDev readyStream) 1 ⟨0, []⟩ 0 1).map
        (fun s => dataWrites s.trace) ≠ some [] := by decide

/-- Claim C1 (amended): for a row outside {1,2} or a column that wraps the
address (such as x = 0), `lcd_gotoxy` does not fail fast: with a responsive
device the operation completes and sends the command byte
`0x80 ||| address` computed with unsigned 8-bit wraparound. -/
theorem lcd_gotoxy_invalid_still_sends (x y k : Nat) (tr : List BusEv)
    (_hxy : ¬(y = 1 ∨ y = 2) ∨ x = 0) :
    ∃ s', lcd_gotoxy (streamDev readyStream) 1 ⟨k, tr⟩ x y = some s' ∧
      dataWrites s'.trace = dataWrites tr ++
        [(0x80 ||| gotoxy_address x y) >>> 4, (0x80 ||| gotoxy_address x y) % 16] :=
  ready_gotoxy_runs x y k tr

/-- Witness for the amended C1 at (x, y) = (0, 1). -/
theorem lcd_gotoxy_invalid_still_sends_witness :
    ∃ s', lcd_gotoxy (streamDev readyStream) 1 ⟨0, []⟩ 0 1 = some s' ∧
      dataWrites s'.trace = dataWrites [] ++
        [(0x80 ||| gotoxy_address 0 1) >>> 4, (0x80 ||| gotoxy_address 0 1) % 16] :=
  lcd_gotoxy_invalid_still_sends 0 1 0 [] (Or.inr rfl)

/-- Claim C2 (counterexample): `lcd_init` does send exactly four full byte
transfers after the wake-up nibbles, namely 0x28, 0x0C, 0x01, 0x06 — but the
third is the clear-display command (0x01) and the fourth entry-mode-set
(0x06), not entry-mode-set followed by clear-display as the claim orders
them. -/
theorem lcd_init_order_counterexample :
    (lcd_init (streamDev readyStream) 1 ⟨0, []⟩).map
        (fun s => nibblePairs ((dataWrites s.trace).drop 4)) =
      some [0x28, 0xc, 0x1, 0x6] ∧
    isClearDisplay 0x1 ∧ ¬ isEntryModeSet 0x1 ∧
    isEntryModeSet 0x6 ∧ ¬ isClearDisplay 0x6 := by
  unfold isClearDisplay isEntryModeSet
  decide

/-- Claim C2 (amended): `lcd_init` sends exactly the four
`LCD_INIT_STRING` bytes as full byte transfers, all addressed to the
command register (register-select 0 throughout), in the order function-set
(0x28), display-control (0x0C), clear-display (0x01), entry-mode-set
(0x06). -/
theorem lcd_init_sequence :
    LCD_INIT_STRING = [0x28, 0xc, 0x1, 0x6] ∧
    (lcd_init (streamDev readyStream) 1 ⟨0, []⟩).map
        (fun s => nibblePairs ((dataWrites s.trace).drop 4)) =
      some [0x28, 0xc, 0x1, 0x6] ∧
    isFunctionSet 0x28 ∧ isDisplayControl 0xc ∧ isClearDisplay 0x1 ∧
    isEntryModeSet 0x6 ∧
    (lcd_init (streamDev readyStream) 1 ⟨0, []⟩).map
        (fun s => s.trace.all
          (fun e => match e with | BusEv.setRS v => v == 0 | _ => true)) =
      some true := by
  unfold isFunctionSet isDisplayControl isClearDisplay isEntryModeSet
  decide

/-- Claim C9: `lcd_gotoxy` accepts every (x, y) without rejection; every
row byte other than 1 selects the second-line offset 0x40; the address
arithmetic is unsigned 8-bit (mod 256); and `lcd_gotoxy 0 1` sends the
command byte `0x80 ||| 0xFF` (nibbles 0xF, 0xF) instead of failing. -/
theorem lcd_gotoxy_no_validation :
    (∀ (x y k : Nat) (tr : List BusEv),
      ∃ s', lcd_gotoxy (streamDev readyStream) 1 ⟨k, tr⟩ x y = some s') ∧
    (∀ x y : Nat, y % 256 ≠ 1 →
      gotoxy_address x y = (0x40 + x % 256 + 255) % 256) ∧
    gotoxy_address 0 1 = 0xFF ∧
    (0x80 : Nat) ||| 0xFF = 0xFF ∧
    (lcd_gotoxy (streamDev readyStream) 1 ⟨0, []⟩ 0 1).map
        (fun s => dataWrites s.trace) = some [0xF, 0xF] := by
  refine ⟨?_, ?_, by decide, by decide, by decide⟩
  · intro x y k tr
    obtain ⟨s', h, _⟩ := ready_gotoxy_runs x y k tr
    exact ⟨s', h⟩
  · intro x y hy
    rw [gotoxy_address, if_pos hy, LCD_LINE_TWO]

/-- Witness for C9's universally quantified parts at concrete inputs. -/
theorem lcd_gotoxy_no_validation_witness :
    (∃ s', lcd_gotoxy (streamDev readyStream) 1 ⟨0, []⟩ 7 0 = some s') ∧
    gotoxy_address 7 0 = (0x40 + 7 % 256 + 255) % 256 :=
  ⟨lcd_gotoxy_no_validation.1 7 0 0 [],
   lcd_gotoxy_no_validation.2.1 7 0 (by decide)⟩

theorem emit_streamDev_setRS (f : Nat → Nat) (k v : Nat) (tr : List BusEv) :
    emit (streamDev f) ⟨k, tr⟩ (.setRS v) = ⟨k, tr ++ [.setRS v]⟩ := rfl

/-- Claim C3: every successful `lcd_send_byte` execution first forces
register-select to 0, then loops reading the command register until a read
shows bit 7 clear, with no data-line change before that; only then is
register-select set to the caller's value and the byte's two nibbles
driven. -/
theorem lcd_send_byte_busy_gate (f : Nat → Nat) (fuel k rs n : Nat)
    (tr0 : List BusEv) (s' : DState Nat)
    (h : lcd_send_byte (streamDev f) fuel ⟨k, tr0⟩ rs n = some s') :
    ∃ j, (∀ i < j, (readByteV f (k + 2 * i)).testBit 7 = true) ∧
      (readByteV f (k + 2 * j)).testBit 7 = false ∧
      s'.trace = tr0 ++ [BusEv.setRS 0] ++ busyTr f k j ++
        ([BusEv.setRS rs, .delayCycles 1, .setRW 0, .delayCycles 1, .setEnable 0] ++
         nibTr ((n % 256) >>> 4) ++ nibTr (n &&& 0xf)) ∧
      (∀ e ∈ [BusEv.setRS 0] ++ busyTr f k j, isWrite e = false) := by
  rw [lcd_send_byte, emit_streamDev_setRS] at h
  rcases hbw : lcd_busy_wait (streamDev f) fuel ⟨k, tr0 ++ [.setRS 0]⟩ with _ | s₁
  · rw [hbw] at h; exact absurd h (by simp)
  · rw [hbw] at h
    dsimp only at h
    obtain ⟨j, hbusy, hfree, rfl⟩ := stream_busy_wait_some f fuel k _ s₁ hbw
    obtain rfl := Option.some_injective _ h
    refine ⟨j, hbusy, hfree, ?_, ?_⟩
    · simp [lcd_send_nibble, emit, nibTr, List.append_assoc]
    · intro e he
      rcases List.mem_append.mp he with h' | h'
      · simp only [List.mem_singleton] at h'; subst h'; rfl
      · exact isWrite_busyTr f j k e h'

/-- Witness for C3: a stream that reports busy once (byte 0xFF) and then
idle (byte 0x00), fuel 2, register-select 1, byte 0xAB. -/
theorem lcd_send_byte_busy_gate_witness :
    ∃ j, (∀ i < j,
        (readByteV (fun i => if i < 2 then 15 else 0) (0 + 2 * i)).testBit 7 = true) ∧
      (readByteV (fun i => if i < 2 then 15 else 0) (0 + 2 * j)).testBit 7 = false ∧
      (DState.mk 4 ([BusEv.setRS 0] ++ busyTr (fun i => if i < 2 then 15 else 0) 0 1 ++
        [BusEv.setRS 1, BusEv.delayCycles 1, BusEv.setRW 0, BusEv.delayCycles 1,
          BusEv.setEnable 0] ++ nibTr 10 ++ nibTr 11)).trace =
        [] ++ [BusEv.setRS 0] ++ busyTr (fun i => if i < 2 then 15 else 0) 0 j ++
        ([BusEv.setRS 1, .delayCycles 1, .setRW 0, .delayCycles 1, .setEnable 0] ++
         nibTr ((0xAB % 256) >>> 4) ++ nibTr (0xAB &&& 0xf)) ∧
      (∀ e ∈ [BusEv.setRS 0] ++ busyTr (fun i => if i < 2 then 15 else 0) 0 j,
        isWrite e = false) :=
  lcd_send_byte_busy_gate (fun i => if i < 2 then 15 else 0) 2 0 1 0xAB [] _
    (by decide)

/-- Claim C6: `lcd_read_byte` reconfigures the data lines to input, samples
the two nibbles, and unconditionally reconfigures the data lines back to
output (drive) as its final bus action before returning, on every
execution and for every device. -/
theorem lcd_read_byte_restores_drive {σ : Type} (D : Device σ) (s : DState σ) :
    ∃ h l d, lcd_read_byte D s = ((h <<< 4) ||| l, ⟨d, s.trace ++ readTrV h l⟩) ∧
      dirEvents (readTrV h l) = [BusEv.dirInput, BusEv.dirOutput] ∧
      (readTrV h l).getLast? = some BusEv.dirOutput := by
  obtain ⟨h, l, d, hr⟩ := lcd_read_byte_shape D s
  exact ⟨h, l, d, hr, rfl, rfl⟩

/-- Claim C7: for every byte `n`, `lcd_send_byte` drives the high nibble
`n >> 4` on the bus before the low nibble `n & 0xF`, over any device. -/
theorem lcd_send_byte_nibble_order {σ : Type} (D : Device σ) (fuel : Nat)
    (s s' : DState σ) (rs n : Nat) (hn : n < 256)
    (h : lcd_send_byte D fuel s rs n = some s') :
    dataWrites s'.trace = dataWrites s.trace ++ [n >>> 4, n &&& 0xf] := by
  rw [send_byte_dataWrites D fuel s s' rs n h]
  rw [show ([((n % 256) >>> 4) % 16, (n &&& 15) % 16] : List Nat) =
    [n >>> 4, n &&& 15] from nibbles_clean n hn]

/-- Witness for C7 at the claim's own example byte 0xAB: the bus receives
nibble 0xA then nibble 0xB. -/
theorem lcd_send_byte_nibble_order_witness :
    dataWrites (DState.mk 2 ([BusEv.setRS 0] ++ readTrV 0 0 ++
        [BusEv.setRS 1, BusEv.delayCycles 1, BusEv.setRW 0, BusEv.delayCycles 1,
          BusEv.setEnable 0] ++ nibTr 10 ++ nibTr 11)).trace =
      dataWrites (DState.mk 0 ([] : List BusEv)).trace ++ [0xAB >>> 4, 0xAB &&& 0xf] :=
  lcd_send_byte_nibble_order (streamDev readyStream) 1 ⟨0, []⟩ _ 1 0xAB
    (by decide) (by decide)

/-- Claim C8: the busy-wait loop has no timeout — `lcd_busy_wait` (and with
it `lcd_send_byte` and `lcd_getc`) terminates for some fuel exactly when
some command-register read returns a byte with bit 7 clear, and against the
always-busy device every fuel yields `none`: the call never completes. -/
theorem lcd_busy_wait_no_timeout :
    (∀ (f : Nat → Nat) (k : Nat) (tr : List BusEv),
      (∃ fuel s', lcd_busy_wait (streamDev f) fuel ⟨k, tr⟩ = some s') ↔
        (∃ j, (readByteV f (k + 2 * j)).testBit 7 = false)) ∧
    (∀ (f : Nat → Nat) (k rs n : Nat) (tr : List BusEv),
      (∃ fuel s', lcd_send_byte (streamDev f) fuel ⟨k, tr⟩ rs n = some s') ↔
        (∃ j, (readByteV f (k + 2 * j)).testBit 7 = false)) ∧
    (∀ (fuel k rs n : Nat) (tr : List BusEv),
      lcd_send_byte (streamDev busyStream) fuel ⟨k, tr⟩ rs n = none) ∧
    (∀ (fuel k x y : Nat) (tr : List BusEv),
      lcd_getc (streamDev busyStream) fuel ⟨k, tr⟩ x y = none) := by
  have h3 : ∀ (fuel k rs n : Nat) (tr : List BusEv),
      lcd_send_byte (streamDev busyStream) fuel ⟨k, tr⟩ rs n = none := by
    intro fuel k rs n tr
    rw [lcd_send_byte, emit_streamDev_setRS, busy_wait_busyStream_none]
  refine ⟨?_, ?_, h3, ?_⟩
  · intro f k tr
    constructor
    · rintro ⟨fuel, s', h⟩
      obtain ⟨j, _, hfree, _⟩ := stream_busy_wait_some f fuel k tr s' h
      exact ⟨j, hfree⟩
    · rintro ⟨j, hj⟩
      obtain ⟨s', h⟩ := stream_busy_wait_of_free f j k tr hj
      exact ⟨j + 1, s', h⟩
  · intro f k rs n tr
    constructor
    · rintro ⟨fuel, s', h⟩
      rw [lcd_send_byte, emit_streamDev_setRS] at h
      rcases hbw : lcd_busy_wait (streamDev f) fuel ⟨k, tr ++ [.setRS 0]⟩ with _ | s₁
      · rw [hbw] at h; exact absurd h (by simp)
      · obtain ⟨j, _, hfree, _⟩ := stream_busy_wait_some f fuel k _ s₁ hbw
        exact ⟨j, hfree⟩
    · rintro ⟨j, hj⟩
      obtain ⟨s₁, hb⟩ := stream_busy_wait_of_free f j k (tr ++ [.setRS 0]) hj
      exact ⟨j + 1, _, by rw [lcd_send_byte, emit_streamDev_setRS, hb]⟩
  · intro fuel k x y tr
    rw [lcd_getc, lcd_gotoxy, h3]

theorem gotoxy_address_valid_lt (x y : Nat) (hx1 : 1 ≤ x) (hx : x ≤ 64)
    (hy : y = 1 ∨ y = 2) : gotoxy_address x y < 128 := by
  rcases hy with rfl | rfl <;>
    simp only [gotoxy_address, LCD_LINE_TWO] <;> norm_num <;> omega

/-- Claim C5: round-trip write/read — for every valid cursor position
(column 1..64, row 1 or 2) and every printable character code c, moving the
cursor there, writing c with `lcd_putc` and reading back with `lcd_getc` at
the same position returns c, over the HD44780 device model started in any
ready state. -/
theorem putc_getc_roundtrip (x y c : Nat) (d : HDState)
    (hw : d.wphase = false) (hrp : d.rphase = false)
    (hx1 : 1 ≤ x) (hx : x ≤ 64) (hy : y = 1 ∨ y = 2)
    (hc1 : 0x20 ≤ c) (hc2 : c ≤ 0x7E) :
    ∃ s₁ s₂ s₃, lcd_gotoxy hdDev 1 ⟨d, []⟩ x y = some s₁ ∧
      lcd_putc hdDev 1 s₁ c = some s₂ ∧
      lcd_getc hdDev 1 s₂ x y = some (c, s₃) := by
  have ha := gotoxy_address_valid_lt x y hx1 hx hy
  obtain ⟨tr1, h1⟩ := hd_gotoxy d [] x y hw hrp ha
  obtain ⟨tr2, h2⟩ := hd_putc_print
    { d with
      rs := 0, rw := 0, enable := 0,
      dataLatch := ((128 + gotoxy_address x y) &&& 15) % 16, wphase := false,
      whigh := ((128 + gotoxy_address x y) >>> 4) % 16, rphase := false,
      ac := gotoxy_address x y } tr1 c rfl rfl hc1 hc2
  obtain ⟨s₃, h3⟩ := hd_getc
    { d with
      rs := 1, rw := 0, enable := 0,
      dataLatch := (c &&& 15) % 16, wphase := false,
      whigh := (c >>> 4) % 16, rphase := false,
      ddram := fun a => if a = gotoxy_address x y then c else d.ddram a,
      ac := (gotoxy_address x y + 1) % 128 } tr2 x y rfl rfl ha
  have hval : (if gotoxy_address x y = gotoxy_address x y then c
      else d.ddram (gotoxy_address x y)) % 256 = c := by
    rw [if_pos rfl]
    exact Nat.mod_eq_of_lt (by omega)
  rw [show (fun a => if a = gotoxy_address x y then c else d.ddram a)
        (gotoxy_address x y) % 256 = c from hval] at h3
  exact ⟨_, _, _, h1, h2, h3⟩

/-- Witness for C5 at position (3, 2), character code 65, from a concrete
ready device state with blank RAM. -/
theorem putc_getc_roundtrip_witness :
    ∃ s₁ s₂ s₃,
      lcd_gotoxy hdDev 1 ⟨HDState.mk 0 0 0 0 (fun _ => 32) 0 false 0 false, []⟩
        3 2 = some s₁ ∧
      lcd_putc hdDev 1 s₁ 65 = some s₂ ∧
      lcd_getc hdDev 1 s₂ 3 2 = some (65, s₃) :=
  putc_getc_roundtrip 3 2 65 (HDState.mk 0 0 0 0 (fun _ => 32) 0 false 0 false)
    rfl rfl (by decide) (by decide) (Or.inr rfl) (by decide) (by decide)

theorem forall_lt_four (P : Nat → Prop) :
    (∀ i < 4, P i) ↔ P 0 ∧ P 1 ∧ P 2 ∧ P 3 := by
  constructor
  · intro h
    exact ⟨h 0 (by omega), h 1 (by omega), h 2 (by omega), h 3 (by omega)⟩
  · rintro ⟨p0, p1, p2, p3⟩ i hi
    interval_cases i <;> assumption

/-- Claim C10: `QUET_THE DATA UID` returns 1 exactly when the first four
bytes of UID equal the four bytes of DATA index by index, and its result
depends only on UID indices 0..3 — two UIDs agreeing there (and possibly
differing at indices 4 and 5) are classified identically. -/
theorem QUET_THE_first_four (DATA UID : Nat → Nat) (t : Nat) :
    (QUET_THE DATA UID t = 1 ↔ ∀ i < 4, UID i = DATA i) ∧
    (∀ UID' : Nat → Nat, (∀ i < 4, UID i = UID' i) →
      QUET_THE DATA UID t = QUET_THE DATA UID' t) := by
  constructor
  · rw [QUET_THE, show List.range 4 = [0, 1, 2, 3] from rfl, forall_lt_four]
    simp only [List.foldl]
    by_cases h0 : UID 0 = DATA 0 <;> by_cases h1 : UID 1 = DATA 1 <;>
      by_cases h2 : UID 2 = DATA 2 <;> by_cases h3 : UID 3 = DATA 3 <;>
      simp [quet_step, h0, h1, h2, h3]
  · intro UID' hagree
    rw [QUET_THE, QUET_THE, show List.range 4 = [0, 1, 2, 3] from rfl]
    simp only [List.foldl, quet_step]
    rw [hagree 0 (by omega), hagree 1 (by omega), hagree 2 (by omega),
      hagree 3 (by omega)]

/-- Witness for C10: two UIDs that agree on indices 0..3 but differ beyond
are classified identically. -/
theorem QUET_THE_first_four_witness :
    QUET_THE (fun i => i + 10) (fun i => i + 10) 0 =
      QUET_THE (fun i => i + 10) (fun i => if i < 4 then i + 10 else 99) 0 :=
  (QUET_THE_first_four (fun i => i + 10) (fun i => i + 10) 0).2
    (fun i => if i < 4 then i + 10 else 99)
    (fun i hi => by
      show i + 10 = if i < 4 then i + 10 else 99
      rw [if_pos hi])

end Ttrung
